import Mathlib

/-!
Verification development for the GDB-Loader repository.

The development shallowly embeds the two core subsystems of the program:

* the response parser and session driver of `src/gdb.rs` (pure text
  extraction over response lines, plus the request/await protocol over the
  subprocess's three piped streams, modelled by explicit state passing), and
* the chunked upload protocol of `src/loader.rs` (modelled as a pure loop
  over the file bytes, with the GDB side abstracted as an oracle giving the
  per-chunk responses, and filesystem staging recorded in an event trace).

Machine integers (`u32`, `usize`) are modelled as `Nat` with explicit
`% 2 ^ 32` exactly where the Rust code wraps or casts.
-/

namespace GdbLoader

/-! ### Response parser (src/gdb.rs, lines 486-566)

The two regexes of `gdb.rs` are `0x([0-9a-fA-F]+)` (single hex address) and
`\(0x([0-9a-fA-F]+) to 0x([0-9a-fA-F]+)\)` (address range).  Both are
embedded as character-list scanners with the leftmost, greedy, non
overlapping match semantics of the `regex` crate.  Since no alternation is
involved and the character following a greedy digit run can never itself be
a digit, greedy scanning without backtracking coincides with the regex
semantics here.
-/

/-- Character class `[0-9a-fA-F]` of both regexes. -/
def isHexDigitChar (c : Char) : Bool :=
  c.isDigit || (('a' ≤ c && c ≤ 'f') || ('A' ≤ c && c ≤ 'F'))

/-- Numeric value of one hex digit. -/
def hexDigitVal (c : Char) : Nat :=
  if c.isDigit then c.toNat - '0'.toNat
  else if 'a' ≤ c && c ≤ 'f' then c.toNat - 'a'.toNat + 10
  else c.toNat - 'A'.toNat + 10

/-- Value of a hex digit string. -/
def hexVal (ds : List Char) : Nat :=
  ds.foldl (fun a c => a * 16 + hexDigitVal c) 0

/-- Models `u32::from_str_radix(s, 16)` on the strings reachable here (the
digit part of a regex match, hence nonempty hex digits): succeeds exactly
when the digits are well formed and the value fits in a `u32`. -/
def parseHexU32 (s : List Char) : Option Nat :=
  if s ≠ [] && s.all isHexDigitChar && hexVal s < 2 ^ 32 then some (hexVal s)
  else none

/-- Scanner state for `find_iter` of the regex `0x([0-9a-fA-F]+)`:
either outside a candidate match, after a `'0'`, or inside the digit run
following `"0x"` (digits accumulated in reverse). -/
inductive HexScan where
  | idle
  | seenZero
  | digits (acc : List Char)

/-- One left-to-right pass implementing `find_iter` of `0x([0-9a-fA-F]+)`:
emits every non overlapping leftmost greedy match (as the full matched
text, `"0x"` included), in order of appearance. -/
def findHexGo : List Char → HexScan → List (List Char)
  | [], st =>
    match st with
    | .digits acc => if acc = [] then [] else ['0' :: 'x' :: acc.reverse]
    | _ => []
  | c :: cs, .idle =>
    findHexGo cs (if c = '0' then .seenZero else .idle)
  | c :: cs, .seenZero =>
    if c = 'x' then findHexGo cs (.digits [])
    else findHexGo cs (if c = '0' then .seenZero else .idle)
  | c :: cs, .digits acc =>
    if isHexDigitChar c then findHexGo cs (.digits (c :: acc))
    else if acc = [] then findHexGo cs (if c = '0' then .seenZero else .idle)
    else ('0' :: 'x' :: acc.reverse) :: findHexGo cs (if c = '0' then .seenZero else .idle)

/-- All matches of `0x([0-9a-fA-F]+)` in the line, in order (the `finds`
vector of `extract_adresses_from_response_line`). -/
def findHex (l : List Char) : List (List Char) :=
  findHexGo l .idle

/-- Tries to match `\(0x([0-9a-fA-F]+) to 0x([0-9a-fA-F]+)\)` at the very
start of the given suffix; on success returns the two capture groups (the
digit runs). -/
def matchRangeAt (l : List Char) : Option (List Char × List Char) :=
  match l with
  | '(' :: '0' :: 'x' :: rest =>
    let ds1 := rest.takeWhile isHexDigitChar
    if ds1 = [] then none
    else
      match rest.drop ds1.length with
      | ' ' :: 't' :: 'o' :: ' ' :: '0' :: 'x' :: rest2 =>
        let ds2 := rest2.takeWhile isHexDigitChar
        if ds2 = [] then none
        else
          match rest2.drop ds2.length with
          | ')' :: _ => some (ds1, ds2)
          | _ => none
      | _ => none
  | _ => none

/-- First (leftmost) match of the range regex in the line, with its two
capture groups; `none` when the pattern is absent.  This is what
`get_hex_adresses_range_regex().captures(line)` observes. -/
def firstRangeMatch : List Char → Option (List Char × List Char)
  | [] => none
  | c :: cs =>
    match matchRangeAt (c :: cs) with
    | some r => some r
    | none => firstRangeMatch cs

/-- Embedding of `extract_adresses_from_response_line` (gdb.rs:511-533):
requires the range pattern to be present somewhere, then collects every
`0x<hex>` match of the whole line, requires there to be exactly two of
them, and hex-parses each with its `"0x"` prefix stripped. -/
def extract_adresses_from_response_line (line : List Char) : Option (Nat × Nat) :=
  match firstRangeMatch line with
  | none => none
  | some _ =>
    match findHex line with
    | [firstStr, secondStr] =>
      match parseHexU32 (firstStr.drop 2) with
      | none => none
      | some startAddress =>
        match parseHexU32 (secondStr.drop 2) with
        | none => none
        | some endAddress => some (startAddress, endAddress)
    | _ => none

/-- Modelled from the spec (section 4.2): `extract_address_range` returns
the two hexadecimal values of the parenthesized `"0x<hex> to 0x<hex>"`
pattern as unsigned 32-bit integers, or none if the pattern is absent or
either value fails to parse.  Used only to compare the spec's description
against the code's behaviour. -/
def extract_address_range_spec (line : List Char) : Option (Nat × Nat) :=
  match firstRangeMatch line with
  | none => none
  | some (d1, d2) =>
    match parseHexU32 d1 with
    | none => none
    | some a =>
      match parseHexU32 d2 with
      | none => none
      | some b => some (a, b)

/-- Embedding of Rust `str::split(" ")` on character lists: splits at every
single space character, keeping empty pieces; on the empty string it yields
one empty piece, exactly as in Rust. -/
def splitOnSpace : List Char → List (List Char)
  | [] => [[]]
  | c :: cs =>
    let r := splitOnSpace cs
    if c = ' ' then [] :: r
    else
      match r with
      | [] => [[c]]
      | t :: ts => (c :: t) :: ts

/-- Value of a decimal digit string. -/
def decimalVal (ds : List Char) : Nat :=
  ds.foldl (fun a c => a * 10 + (c.toNat - '0'.toNat)) 0

/-- Digit-run part of `str::parse::<u32>()`: one or more ASCII digits whose
value fits in a `u32`. -/
def parseDecDigits (ds : List Char) : Option Nat :=
  if ds ≠ [] && ds.all Char.isDigit && decimalVal ds < 2 ^ 32 then some (decimalVal ds)
  else none

/-- Models `str::parse::<u32>()`: an optional leading `'+'`, then one or
more ASCII digits, rejecting the empty string and values outside `u32`. -/
def parseU32Decimal (s : List Char) : Option Nat :=
  parseDecDigits
    (match s with
     | '+' :: rest => rest
     | _ => s)

/-- Embedding of `extract_variable_value_from_response_line` (gdb.rs:542-546):
`line.split(" ").last().and_then(|s| s.parse().ok())`. -/
def extract_variable_value_from_response_line (line : List Char) : Option Nat :=
  match (splitOnSpace line).getLast? with
  | none => none
  | some tok => parseU32Decimal tok

/-- Whitespace characters (the ASCII part of Rust's
`char::is_whitespace`, which is what both `str::trim` and
`str::split_whitespace` use; the response lines at hand are ASCII). -/
def isWhitespaceChar (c : Char) : Bool :=
  c = ' ' || c = '\t' || c = '\n' || c = '\r'

/-- Helper for the spec-modelled whitespace split: accumulates the current
token (reversed) and emits tokens at whitespace boundaries, producing no
empty tokens. -/
def splitWhitespaceGo : List Char → List Char → List (List Char)
  | [], acc => if acc = [] then [] else [acc.reverse]
  | c :: cs, acc =>
    if isWhitespaceChar c then
      if acc = [] then splitWhitespaceGo cs []
      else acc.reverse :: splitWhitespaceGo cs []
    else splitWhitespaceGo cs (c :: acc)

/-- Modelled from the spec (section 4.2): `extract_trailing_integer` splits
on whitespace, takes the last token, parses it as an unsigned decimal
integer; none on parse failure or empty input.  Used only to compare the
spec's description against the code's behaviour. -/
def extract_trailing_integer_spec (line : List Char) : Option Nat :=
  match (splitWhitespaceGo line []).getLast? with
  | none => none
  | some tok => parseU32Decimal tok

/-- Embedding of Rust `str::trim` (drop whitespace at both ends). -/
def trimChars (l : List Char) : List Char :=
  ((l.dropWhile isWhitespaceChar).reverse.dropWhile isWhitespaceChar).reverse

/-- String-level `trim`, as applied to every collected response line. -/
def rustTrim (s : String) : String :=
  String.mk (trimChars s.data)

/-! ### Session driver (src/gdb.rs, lines 10-196 and 463-483)

The subprocess and its three piped streams are modelled by explicit state
passing.  The two output streams are multiplexed by `select!` into one
arrival-ordered sequence, so the state carries that merged sequence as a
list of events, each tagged with which stream it came from and with its
delay (in milliseconds) since the previously consumed event; an `eof` event
models `read_line` returning `Ok(0)` (and likewise a read error, since both
merely break the collection loop).  Reading a line and timing out are
the only clock-consuming operations, so elapsed time is the sum of the
consumed delays, capped by the timeout budget. -/

/-- Typed image of the `io::Error` values the program constructs or meets:
`invalidData` carries the message of an `ErrorKind::InvalidData` error,
`brokenPipe` stands for a failed write on the subprocess's stdin, and
`notFound` for a spawn-time error. -/
inductive IoErr where
  | invalidData (msg : String)
  | brokenPipe
  | notFound
  deriving Repr, DecidableEq

/-- One event on the merged output streams: a line arriving (on stderr when
`fromStderr` is true) or end-of-stream. -/
inductive StreamEvent where
  | line (fromStderr : Bool) (text : String)
  | eof (fromStderr : Bool)
  deriving Repr, DecidableEq

/-- The mutable state of `struct Gdb`: whether the stdin pipe still accepts
writes, the pending merged output events (with inter-arrival delays), and
the log of command lines written so far. -/
structure GdbState where
  stdinOk : Bool
  events : List (Nat × StreamEvent)
  sent : List String
  deriving Repr, DecidableEq

/-- Outcome of an operation that may also panic (Rust `expect`), which
terminates the hosting process rather than returning an error. -/
inductive ProcOutcome (α : Type) where
  | ok (value : α)
  | err (e : IoErr)
  | panicked (msg : String)
  deriving Repr, DecidableEq

/-- Embedding of `Gdb::make_request` (gdb.rs:93-97): writes one command
line and flushes; fails when the stdin pipe is closed. -/
def make_request (cmd : String) (st : GdbState) : Except IoErr GdbState :=
  if st.stdinOk then .ok { st with sent := st.sent ++ [cmd] }
  else .error .brokenPipe

/-- Work loop of `Gdb::await_responses` (gdb.rs:107-170): consumes merged
stream events while the timeout budget lasts, trimming and collecting each
line, stopping early on end-of-stream or as soon as the expected count is
reached (the count check runs after each push, so `Some(0)` here never
stops early, exactly as in the Rust loop).  Returns the collected lines,
the events left unconsumed (the head delay reduced by the leftover budget
on a timeout), and the time spent. -/
def await_responses_go (expected : Option Nat) (acc : List String) :
    Nat → List (Nat × StreamEvent) → List String × List (Nat × StreamEvent) × Nat
  | budget, [] => (acc, [], budget)
  | budget, (d, e) :: rest =>
    if budget < d then (acc, (d - budget, e) :: rest, budget)
    else
      match e with
      | .eof _ => (acc, rest, d)
      | .line _ text =>
        let acc2 := acc ++ [rustTrim text]
        if expected = some acc2.length then (acc2, rest, d)
        else
          let (r, rem, el) := await_responses_go expected acc2 (budget - d) rest
          (r, rem, d + el)

/-- Embedding of `Gdb::await_responses`: starts with no collected lines and
the full timeout as budget. -/
def await_responses (expected : Option Nat) (awaitTimeout : Nat) (st : GdbState) :
    List String × GdbState × Nat :=
  let r := await_responses_go expected [] awaitTimeout st.events
  (r.1, { st with events := r.2.1 }, r.2.2)

/-- Embedding of `Gdb::make_request_await_response` (gdb.rs:181-196): sends
the command, then either returns an empty frame at once (`Some(0)`, no
stream is read and no time passes) or collects responses. -/
def make_request_await_response (cmd : String) (expectedCount : Option Nat)
    (awaitTimeout : Nat) (st : GdbState) :
    Except IoErr (List String) × GdbState × Nat :=
  match make_request cmd st with
  | .error e => (.error e, st, 0)
  | .ok st1 =>
    if expectedCount = some 0 then (.ok [], st1, 0)
    else
      let r := await_responses expectedCount awaitTimeout st1
      (.ok r.1, r.2.1, r.2.2)

/-- Embedding of `Gdb::try_new` (gdb.rs:39-84).  The result of spawning the
subprocess is an input: `.error` makes `spawn().expect("Failed to start
GDB")` panic.  On a successful spawn the handshake is: send
`"set confirm off"` (propagating a write failure), drain pending responses
for 250 ms discarding them, then request `"target remote <server>"` with an
unbounded policy and a 500 ms timeout, discarding the response frame. -/
def try_new (spawnResult : Except IoErr GdbState) (server : String) :
    ProcOutcome GdbState :=
  match spawnResult with
  | .error _ => .panicked "Failed to start GDB"
  | .ok st =>
    match make_request "set confirm off" st with
    | .error e => .err e
    | .ok st1 =>
      let st2 := (await_responses none 250 st1).2.1
      match make_request_await_response ("target remote " ++ server) none 500 st2 with
      | (.error e, _, _) => .err e
      | (.ok _, st3, _) => .ok st3

/-- Embedding of `Gdb::write_binary_file_to_mem` (gdb.rs:463-483): issues
`restore <path> binary <buffer>` expecting one line within 1000 ms, parses
the address range out of the first line, and returns `to - from` as the
byte count.  The subtraction is the unguarded `u32` subtraction of the Rust
code, which in release builds wraps modulo `2 ^ 32` when `to < from`. -/
def write_binary_file_to_mem (ramBufferName binaryFilepath : String) (st : GdbState) :
    Except IoErr Nat × GdbState :=
  match make_request_await_response
      ("restore " ++ binaryFilepath ++ " binary " ++ ramBufferName) (some 1) 1000 st with
  | (.error e, st2, _) => (.error e, st2)
  | (.ok lines, st2, _) =>
    match lines.head? with
    | none => (.error (.invalidData "Read missing result"), st2)
    | some firstLine =>
      match extract_adresses_from_response_line firstLine.data with
      | none => (.error (.invalidData "Corrupted result format"), st2)
      | some (fromAddress, toAddress) =>
        (.ok ((toAddress + 2 ^ 32 - fromAddress) % 2 ^ 32), st2)

/-! ### Chunk uploader (src/loader.rs)

The uploader drives the session once per chunk, strictly in index order:
stage the chunk bytes to the workspace, write the staged file to the
target's RAM buffer, call the copy routine with `(flash_offset,
chunk_bytes)` (as `u32`), and compare the returned checksum with the
host's.  The two GDB interactions are abstracted as an oracle indexed by
the chunk index (each interaction happens exactly once per chunk, in
order); filesystem staging, whose failures are environmental, is recorded
in the run's trace.  The loop is written with explicit fuel for structural
recursion; every run started by `upload_binary_file_to_external_flash` has
fuel equal to the file size, which is never exhausted since each iteration
consumes at least one byte whenever `chunkSize > 0`. -/

/-- Embedding of the checksum fold of loader.rs:139:
`data_slice.iter().fold(0u32, |acc, &v| acc.wrapping_add(v as u32))`,
with bytes as naturals below 256 so that the `u8 → u32` cast is exact. -/
def chunk_checksum (bs : List Nat) : Nat :=
  bs.foldl (fun acc v => (acc + v) % 2 ^ 32) 0

/-- Responses of the GDB side as seen by the uploader, per chunk index:
the byte count reported by `write_binary_file_to_mem` and the checksum
returned by the copy-routine call. -/
structure GdbOracle where
  writeByteCount : Nat → Except IoErr Nat
  targetChecksum : Nat → Except IoErr Nat

/-- Arguments of one `per_chunk_handler` invocation (loader.rs:175-181). -/
structure ProgressCall where
  chunkIdx : Nat
  chunksCount : Nat
  bytesTransferred : Nat
  totalSize : Nat
  timeMillis : Nat
  deriving Repr, DecidableEq

/-- Observable trace of one upload run: its result, the chunks staged to
the workspace (index and bytes, via `save_chunk_tmp_file`), the chunk
indices written to target RAM, the copy-routine calls (their two `u32`
arguments), and the progress-handler invocations. -/
structure UploadRun where
  result : Except IoErr Unit
  staged : List (Nat × List Nat)
  ramWrites : List Nat
  copyCalls : List (Nat × Nat)
  progress : List ProgressCall
  deriving Repr

/-- The `while remaining_bytes > 0` loop of
`upload_binary_file_to_external_flash` (loader.rs:129-189), one iteration
per fuel unit.  State: remaining bytes, data offset, chunk index, flash
offset, bytes transferred — updated exactly as in the Rust loop. -/
def uploadLoop (o : GdbOracle) (fileData : List Nat) (chunkSize : Nat)
    (handlerSupplied : Bool) (startMillis chunksCount totalDataSize : Nat) :
    Nat → Nat → Nat → Nat → Nat → Nat → UploadRun
  | 0, _, _, _, _, _ =>
    { result := .ok (), staged := [], ramWrites := [], copyCalls := [], progress := [] }
  | fuel + 1, remainingBytes, dataOffset, chunkIdx, flashOffset, bytesTransferred =>
    if remainingBytes = 0 then
      { result := .ok (), staged := [], ramWrites := [], copyCalls := [], progress := [] }
    else
      let chunkBytes := if remainingBytes > chunkSize then chunkSize else remainingBytes
      let dataSlice := (fileData.drop dataOffset).take chunkBytes
      let dataSliceChecksum := chunk_checksum dataSlice
      match o.writeByteCount chunkIdx with
      | .error e =>
        { result := .error e, staged := [(chunkIdx, dataSlice)], ramWrites := [],
          copyCalls := [], progress := [] }
      | .ok _ =>
        match o.targetChecksum chunkIdx with
        | .error e =>
          { result := .error e, staged := [(chunkIdx, dataSlice)], ramWrites := [chunkIdx],
            copyCalls := [(flashOffset % 2 ^ 32, chunkBytes % 2 ^ 32)], progress := [] }
        | .ok targetChecksum =>
          if dataSliceChecksum ≠ targetChecksum then
            { result := .error (.invalidData
                ("Checksum not match host=" ++ toString dataSliceChecksum ++
                  " target=" ++ toString targetChecksum)),
              staged := [(chunkIdx, dataSlice)], ramWrites := [chunkIdx],
              copyCalls := [(flashOffset % 2 ^ 32, chunkBytes % 2 ^ 32)], progress := [] }
          else
            let bytesTransferredNew := bytesTransferred + chunkBytes
            let progressHere : List ProgressCall :=
              if handlerSupplied then
                [{ chunkIdx := chunkIdx, chunksCount := chunksCount,
                   bytesTransferred := bytesTransferredNew, totalSize := totalDataSize,
                   timeMillis := startMillis }]
              else []
            let rest := uploadLoop o fileData chunkSize handlerSupplied startMillis
              chunksCount totalDataSize fuel (remainingBytes - chunkBytes)
              (dataOffset + chunkBytes) (chunkIdx + 1) (flashOffset + chunkBytes)
              bytesTransferredNew
            { result := rest.result,
              staged := (chunkIdx, dataSlice) :: rest.staged,
              ramWrites := chunkIdx :: rest.ramWrites,
              copyCalls := (flashOffset % 2 ^ 32, chunkBytes % 2 ^ 32) :: rest.copyCalls,
              progress := progressHere ++ rest.progress }

/-- The chunk count of loader.rs:111:
`(size / chunk_size) + if size % chunk_size != 0 { 1 } else { 0 }`. -/
def chunksCountOf (totalDataSize chunkSize : Nat) : Nat :=
  totalDataSize / chunkSize + (if totalDataSize % chunkSize ≠ 0 then 1 else 0)

/-- Embedding of `upload_binary_file_to_external_flash` (loader.rs:96-192).
`fileData` is the content read from the binary file, `startMillis` the
wall-clock time (milliseconds since the Unix epoch) captured by
`SystemTime::now()` just before the loop, which the code converts with
`duration_since(UNIX_EPOCH)` when invoking the handler. -/
def upload_binary_file_to_external_flash (o : GdbOracle) (fileData : List Nat)
    (chunkSize flashStartOffset : Nat) (handlerSupplied : Bool) (startMillis : Nat) :
    UploadRun :=
  let totalDataSize := fileData.length
  let chunksCount := chunksCountOf totalDataSize chunkSize
  uploadLoop o fileData chunkSize handlerSupplied startMillis chunksCount totalDataSize
    totalDataSize totalDataSize 0 0 flashStartOffset 0

/-- Length of chunk `j` of a file of length `L` with chunk size `C` (the
loop's `chunk_bytes` at chunk index `j`). -/
def chunkLen (L C j : Nat) : Nat :=
  min C (L - j * C)

/-- Bytes of chunk `j` (the loop's `data_slice` at chunk index `j`). -/
def chunkSlice (fileData : List Nat) (C j : Nat) : List Nat :=
  (fileData.drop (j * C)).take (chunkLen fileData.length C j)

/-- Host-side checksum of chunk `j`. -/
def hostChecksum (fileData : List Nat) (C j : Nat) : Nat :=
  chunk_checksum (chunkSlice fileData C j)

/-- A target oracle that always succeeds and echoes the host's checksum
for every chunk (a fully cooperating target). -/
def honestOracle (fileData : List Nat) (C : Nat) : GdbOracle :=
  { writeByteCount := fun _ => .ok 0,
    targetChecksum := fun j => .ok (hostChecksum fileData C j) }

/-! ### Helper lemmas -/

theorem chunksCountOf_le {L C i : Nat} (hC : 0 < C) (h : L ≤ i * C) :
    chunksCountOf L C ≤ i := by
  have hdm := Nat.div_add_mod L C
  have hmc : i * C = C * i := Nat.mul_comm i C
  unfold chunksCountOf
  by_cases hr : L % C = 0
  · simp only [hr, ne_eq, not_true_eq_false, ite_false, Nat.add_zero]
    exact Nat.le_of_mul_le_mul_left (by omega) hC
  · simp only [ne_eq, hr, not_false_eq_true, ite_true]
    by_contra hcon
    push_neg at hcon
    have hiq : i ≤ L / C := by omega
    have hmul : C * i ≤ C * (L / C) := Nat.mul_le_mul_left C hiq
    omega

theorem lt_chunksCountOf {L C i : Nat} (hC : 0 < C) (h : i * C < L) :
    i < chunksCountOf L C := by
  have hdm := Nat.div_add_mod L C
  have hmc : i * C = C * i := Nat.mul_comm i C
  unfold chunksCountOf
  by_cases hr : L % C = 0
  · simp only [hr, ne_eq, not_true_eq_false, ite_false, Nat.add_zero]
    exact Nat.lt_of_mul_lt_mul_left (a := C) (by omega)
  · simp only [ne_eq, hr, not_false_eq_true, ite_true]
    by_contra hcon
    push_neg at hcon
    have hmul : C * (L / C + 1) ≤ C * i := Nat.mul_le_mul_left C (by omega)
    have hdist : C * (L / C + 1) = C * (L / C) + C := by ring
    have hrC : L % C < C := Nat.mod_lt L hC
    omega

theorem chunksCountOf_mul_lt {L C k : Nat} (hC : 0 < C) (hk : k < chunksCountOf L C) :
    k * C < L := by
  by_contra hcon
  push_neg at hcon
  exact absurd (chunksCountOf_le hC hcon) (by omega)

theorem chunksCountOf_eq_ceil {L C : Nat} (hC : 0 < C) :
    chunksCountOf L C = (L + C - 1) / C := by
  have hdm := Nat.div_add_mod L C
  have hrC : L % C < C := Nat.mod_lt L hC
  unfold chunksCountOf
  by_cases hr : L % C = 0
  · simp only [hr, ne_eq, not_true_eq_false, ite_false, Nat.add_zero]
    have h1 : L + C - 1 = C * (L / C) + (C - 1) := by omega
    rw [h1, Nat.mul_add_div hC, Nat.div_eq_of_lt (by omega : C - 1 < C)]
    omega
  · simp only [ne_eq, hr, not_false_eq_true, ite_true]
    have h1 : L + C - 1 = C * (L / C) + (L % C + C - 1) := by omega
    rw [h1, Nat.mul_add_div hC,
      Nat.div_eq_of_lt_le (by omega : 1 * C ≤ L % C + C - 1)
        (by omega : L % C + C - 1 < (1 + 1) * C)]

theorem ite_gt_eq_min (r C : Nat) : (if r > C then C else r) = min C r := by
  rcases Nat.lt_or_ge C r with h | h
  · rw [if_pos h, Nat.min_eq_left (Nat.le_of_lt h)]
  · rw [if_neg (by omega), Nat.min_eq_right h]

theorem chunk_checksum_eq_sum_mod (bs : List Nat) :
    chunk_checksum bs = bs.sum % 2 ^ 32 := by
  unfold chunk_checksum
  suffices hgen : ∀ a, a < 2 ^ 32 →
      bs.foldl (fun acc v => (acc + v) % 2 ^ 32) a = (a + bs.sum) % 2 ^ 32 by
    simpa using hgen 0 (by norm_num)
  induction bs with
  | nil => intro a ha; simp only [List.foldl_nil, List.sum_nil, Nat.add_zero]; omega
  | cons v t ih =>
    intro a _
    simp only [List.foldl_cons, List.sum_cons]
    rw [ih ((a + v) % 2 ^ 32) (Nat.mod_lt _ (by norm_num)), Nat.mod_add_mod]
    omega

theorem parseHexU32_lt {s : List Char} {v : Nat} (h : parseHexU32 s = some v) :
    v < 2 ^ 32 := by
  unfold parseHexU32 at h
  split at h
  · rename_i hcond
    simp only [Bool.and_eq_true, decide_eq_true_eq] at hcond
    cases h
    exact hcond.2
  · exact absurd h (by simp)

theorem parseDecDigits_lt {ds : List Char} {v : Nat} (h : parseDecDigits ds = some v) :
    v < 2 ^ 32 := by
  unfold parseDecDigits at h
  split at h
  · rename_i hcond
    simp only [Bool.and_eq_true, decide_eq_true_eq] at hcond
    cases h
    exact hcond.2
  · exact absurd h (by simp)

theorem parseU32Decimal_lt {s : List Char} {v : Nat} (h : parseU32Decimal s = some v) :
    v < 2 ^ 32 := by
  unfold parseU32Decimal at h
  exact parseDecDigits_lt h

theorem extract_adresses_some {l : List Char} {a b : Nat}
    (hx : extract_adresses_from_response_line l = some (a, b)) :
    (firstRangeMatch l).isSome = true ∧ a < 2 ^ 32 ∧ b < 2 ^ 32 := by
  unfold extract_adresses_from_response_line at hx
  split at hx
  · exact absurd hx (by simp)
  · rename_i hfm
    refine ⟨by simp [hfm], ?_⟩
    split at hx
    · split at hx
      · exact absurd hx (by simp)
      · rename_i hp1
        split at hx
        · exact absurd hx (by simp)
        · rename_i hp2
          cases hx
          exact ⟨parseHexU32_lt hp1, parseHexU32_lt hp2⟩
    · exact absurd hx (by simp)

theorem uploadLoop_success (o : GdbOracle) (fileData : List Nat) (C : Nat)
    (h : Bool) (s F : Nat) (hC : 0 < C) :
    ∀ fuel i, fileData.length ≤ i * C + fuel →
    (∀ j, i ≤ j → j * C < fileData.length →
      (∃ w, o.writeByteCount j = .ok w) ∧
      o.targetChecksum j = .ok (hostChecksum fileData C j)) →
    uploadLoop o fileData C h s (chunksCountOf fileData.length C) fileData.length
      fuel (fileData.length - i * C) (min (i * C) fileData.length) i
      (F + min (i * C) fileData.length) (min (i * C) fileData.length) =
    { result := .ok (),
      staged := (List.range' i (chunksCountOf fileData.length C - i)).map
        (fun j => (j, chunkSlice fileData C j)),
      ramWrites := List.range' i (chunksCountOf fileData.length C - i),
      copyCalls := (List.range' i (chunksCountOf fileData.length C - i)).map
        (fun j => ((F + j * C) % 2 ^ 32, chunkLen fileData.length C j % 2 ^ 32)),
      progress := if h then (List.range' i (chunksCountOf fileData.length C - i)).map
        (fun j => { chunkIdx := j, chunksCount := chunksCountOf fileData.length C,
                    bytesTransferred := min ((j + 1) * C) fileData.length,
                    totalSize := fileData.length, timeMillis := s }) else [] } := by
  intro fuel
  induction fuel with
  | zero =>
    intro i hfuel _
    have hKi0 : chunksCountOf fileData.length C - i = 0 :=
      Nat.sub_eq_zero_of_le (chunksCountOf_le hC (by omega))
    have hzero : fileData.length - i * C = 0 := by omega
    rw [hzero, hKi0]
    simp [uploadLoop]
  | succ fuel ih =>
    intro i hfuel hok
    by_cases hrem : fileData.length - i * C = 0
    · have hKi0 : chunksCountOf fileData.length C - i = 0 :=
        Nat.sub_eq_zero_of_le (chunksCountOf_le hC (by omega))
      rw [hrem, hKi0]
      simp [uploadLoop]
    · have hiCL : i * C < fileData.length := by omega
      have hmin : min (i * C) fileData.length = i * C := Nat.min_eq_left (by omega)
      obtain ⟨⟨w, hw⟩, hck⟩ := hok i le_rfl hiCL
      have hsucc : (i + 1) * C = i * C + C := Nat.succ_mul i C
      have hcb : (if fileData.length - i * C > C then C else fileData.length - i * C)
          = chunkLen fileData.length C i := by
        rw [ite_gt_eq_min]; rfl
      have hcl : chunkLen fileData.length C i = min C (fileData.length - i * C) := rfl
      have e_rem : fileData.length - i * C - chunkLen fileData.length C i
          = fileData.length - (i + 1) * C := by
        rw [hcl, hsucc]; omega
      have e_off : i * C + chunkLen fileData.length C i
          = min ((i + 1) * C) fileData.length := by
        rw [hcl, hsucc]; omega
      have hi : i < chunksCountOf fileData.length C := lt_chunksCountOf hC hiCL
      have hKsub : chunksCountOf fileData.length C - i
          = (chunksCountOf fileData.length C - (i + 1)) + 1 := by omega
      have hrec := ih (i + 1) (by omega)
        (fun j hj hjL => hok j (by omega) hjL)
      rw [hKsub, List.range'_succ]
      simp only [uploadLoop, if_neg hrem, hmin, hcb, hw, hck]
      have hhost : hostChecksum fileData C i
          = chunk_checksum ((fileData.drop (i * C)).take (chunkLen fileData.length C i)) :=
        rfl
      rw [hhost, if_neg (show ¬(chunk_checksum
          ((fileData.drop (i * C)).take (chunkLen fileData.length C i))
          ≠ chunk_checksum ((fileData.drop (i * C)).take (chunkLen fileData.length C i)))
        from fun hcon => hcon rfl)]
      rw [show F + i * C + chunkLen fileData.length C i
            = F + min ((i + 1) * C) fileData.length by rw [hcl, hsucc]; omega,
        e_rem, e_off, hrec]
      simp only [List.map_cons, UploadRun.mk.injEq, eq_self_iff_true, true_and, and_true]
      cases h <;> simp [chunkSlice]

theorem uploadLoop_abort (o : GdbOracle) (fileData : List Nat) (C : Nat)
    (h : Bool) (s F : Nat) (k t : Nat) (hC : 0 < C)
    (hkL : k * C < fileData.length)
    (hwk : ∃ w, o.writeByteCount k = .ok w)
    (htk : o.targetChecksum k = .ok t)
    (hne : t ≠ hostChecksum fileData C k) :
    ∀ fuel i, i ≤ k → fileData.length ≤ i * C + fuel →
    (∀ j, i ≤ j → j < k →
      (∃ w, o.writeByteCount j = .ok w) ∧
      o.targetChecksum j = .ok (hostChecksum fileData C j)) →
    uploadLoop o fileData C h s (chunksCountOf fileData.length C) fileData.length
      fuel (fileData.length - i * C) (min (i * C) fileData.length) i
      (F + min (i * C) fileData.length) (min (i * C) fileData.length) =
    { result := .error (.invalidData
        ("Checksum not match host=" ++ toString (hostChecksum fileData C k) ++
          " target=" ++ toString t)),
      staged := (List.range' i (k + 1 - i)).map (fun j => (j, chunkSlice fileData C j)),
      ramWrites := List.range' i (k + 1 - i),
      copyCalls := (List.range' i (k + 1 - i)).map
        (fun j => ((F + j * C) % 2 ^ 32, chunkLen fileData.length C j % 2 ^ 32)),
      progress := if h then (List.range' i (k - i)).map
        (fun j => { chunkIdx := j, chunksCount := chunksCountOf fileData.length C,
                    bytesTransferred := min ((j + 1) * C) fileData.length,
                    totalSize := fileData.length, timeMillis := s }) else [] } := by
  intro fuel
  induction fuel with
  | zero =>
    intro i hik hfuel _
    have : i * C ≤ k * C := Nat.mul_le_mul_right C hik
    omega
  | succ fuel ih =>
    intro i hik hfuel hok
    have hle : i * C ≤ k * C := Nat.mul_le_mul_right C hik
    have hiCL : i * C < fileData.length := by omega
    have hrem : ¬(fileData.length - i * C = 0) := by omega
    have hmin : min (i * C) fileData.length = i * C := Nat.min_eq_left (by omega)
    have hcb : (if fileData.length - i * C > C then C else fileData.length - i * C)
        = chunkLen fileData.length C i := by rw [ite_gt_eq_min]; rfl
    have hslice : (fileData.drop (i * C)).take (chunkLen fileData.length C i)
        = chunkSlice fileData C i := rfl
    rcases Nat.eq_or_lt_of_le hik with heq | hlt
    · subst heq
      obtain ⟨w, hw⟩ := hwk
      simp only [uploadLoop, if_neg hrem, hmin, hcb, hw, htk]
      rw [if_pos (show chunk_checksum
            ((fileData.drop (i * C)).take (chunkLen fileData.length C i)) ≠ t
          from fun hcon => hne hcon.symm)]
      have h1 : i + 1 - i = 1 := by omega
      have h0 : i - i = 0 := by omega
      rw [h1, h0]
      simp only [List.range'_one, List.range'_zero, List.map_cons, List.map_nil,
        UploadRun.mk.injEq, eq_self_iff_true, true_and, and_true]
      refine ⟨?_, by simp [hslice], by cases h <;> simp⟩
      have : hostChecksum fileData C i
          = chunk_checksum ((fileData.drop (i * C)).take (chunkLen fileData.length C i)) := rfl
      rw [this]
    · have hsucc : (i + 1) * C = i * C + C := Nat.succ_mul i C
      have hcl : chunkLen fileData.length C i = min C (fileData.length - i * C) := rfl
      have e_rem : fileData.length - i * C - chunkLen fileData.length C i
          = fileData.length - (i + 1) * C := by rw [hcl, hsucc]; omega
      have e_off : i * C + chunkLen fileData.length C i
          = min ((i + 1) * C) fileData.length := by rw [hcl, hsucc]; omega
      obtain ⟨⟨w, hw⟩, hck⟩ := hok i le_rfl hlt
      have hKsub1 : k + 1 - i = (k + 1 - (i + 1)) + 1 := by omega
      have hKsub2 : k - i = (k - (i + 1)) + 1 := by omega
      have hrec := ih (i + 1) hlt (by omega)
        (fun j hj hjk => hok j (by omega) hjk)
      rw [hKsub1, hKsub2, List.range'_succ, List.range'_succ]
      simp only [uploadLoop, if_neg hrem, hmin, hcb, hw, hck]
      have hhost : hostChecksum fileData C i
          = chunk_checksum ((fileData.drop (i * C)).take (chunkLen fileData.length C i)) :=
        rfl
      rw [hhost, if_neg (show ¬(chunk_checksum
          ((fileData.drop (i * C)).take (chunkLen fileData.length C i))
          ≠ chunk_checksum ((fileData.drop (i * C)).take (chunkLen fileData.length C i)))
        from fun hcon => hcon rfl)]
      rw [show F + i * C + chunkLen fileData.length C i
            = F + min ((i + 1) * C) fileData.length by rw [hcl, hsucc]; omega,
        e_rem, e_off, hrec]
      simp only [List.map_cons, UploadRun.mk.injEq, eq_self_iff_true, true_and, and_true]
      cases h <;> simp [chunkSlice]

theorem uploadLoop_progress_time (o : GdbOracle) (fileData : List Nat) (C : Nat)
    (h : Bool) (s K T : Nat) :
    ∀ fuel r d ci fo bt,
    ∀ p ∈ (uploadLoop o fileData C h s K T fuel r d ci fo bt).progress,
    p.timeMillis = s := by
  intro fuel
  induction fuel with
  | zero => intro r d ci fo bt p hp; simp [uploadLoop] at hp
  | succ fuel ih =>
    intro r d ci fo bt p hp
    simp only [uploadLoop] at hp
    split at hp
    · simp at hp
    · generalize (if r > C then C else r) = cb at hp
      split at hp
      · simp at hp
      · split at hp
        · simp at hp
        · split at hp
          all_goals
            first
            | exact absurd hp (List.not_mem_nil p)
            | (simp at hp
               rcases hp with ⟨_, hp⟩ | hp
               · rw [hp]
               · exact ih _ _ _ _ _ p hp)

theorem chunkSlice_length (fileData : List Nat) (C j : Nat) :
    (chunkSlice fileData C j).length = chunkLen fileData.length C j := by
  simp only [chunkSlice, chunkLen, List.length_take, List.length_drop]
  omega

theorem range'_chunkLen_sum (L C : Nat) :
    ∀ n i, ((List.range' i n).map (fun j => chunkLen L C j)).sum
      = min (L - i * C) (n * C) := by
  intro n
  induction n with
  | zero => intro i; simp
  | succ n ih =>
    intro i
    rw [List.range'_succ, List.map_cons, List.sum_cons, ih (i + 1)]
    have h1 : (i + 1) * C = i * C + C := Nat.succ_mul i C
    have h2 : (n + 1) * C = n * C + C := Nat.succ_mul n C
    simp only [chunkLen, h1, h2]
    omega

theorem upload_run_success (o : GdbOracle) (fileData : List Nat)
    (C F s : Nat) (h : Bool) (hC : 0 < C)
    (hok : ∀ j, j * C < fileData.length →
      (∃ w, o.writeByteCount j = .ok w) ∧
      o.targetChecksum j = .ok (hostChecksum fileData C j)) :
    upload_binary_file_to_external_flash o fileData C F h s =
    { result := .ok (),
      staged := (List.range (chunksCountOf fileData.length C)).map
        (fun j => (j, chunkSlice fileData C j)),
      ramWrites := List.range (chunksCountOf fileData.length C),
      copyCalls := (List.range (chunksCountOf fileData.length C)).map
        (fun j => ((F + j * C) % 2 ^ 32, chunkLen fileData.length C j % 2 ^ 32)),
      progress := if h then (List.range (chunksCountOf fileData.length C)).map
        (fun j => { chunkIdx := j, chunksCount := chunksCountOf fileData.length C,
                    bytesTransferred := min ((j + 1) * C) fileData.length,
                    totalSize := fileData.length, timeMillis := s }) else [] } := by
  have h0 := uploadLoop_success o fileData C h s F hC fileData.length 0
    (by simp) (fun j _ hjl => hok j hjl)
  simp only [Nat.zero_mul, Nat.sub_zero, Nat.zero_min, Nat.add_zero] at h0
  unfold upload_binary_file_to_external_flash
  rw [List.range_eq_range']
  exact h0

theorem upload_run_abort (o : GdbOracle) (fileData : List Nat) (C F s : Nat)
    (h : Bool) (k t : Nat) (hC : 0 < C)
    (hk : k < chunksCountOf fileData.length C)
    (hpre : ∀ j, j < k →
      (∃ w, o.writeByteCount j = .ok w) ∧
      o.targetChecksum j = .ok (hostChecksum fileData C j))
    (hwk : ∃ w, o.writeByteCount k = .ok w)
    (htk : o.targetChecksum k = .ok t)
    (hne : t ≠ hostChecksum fileData C k) :
    upload_binary_file_to_external_flash o fileData C F h s =
    { result := .error (.invalidData
        ("Checksum not match host=" ++ toString (hostChecksum fileData C k) ++
          " target=" ++ toString t)),
      staged := (List.range (k + 1)).map (fun j => (j, chunkSlice fileData C j)),
      ramWrites := List.range (k + 1),
      copyCalls := (List.range (k + 1)).map
        (fun j => ((F + j * C) % 2 ^ 32, chunkLen fileData.length C j % 2 ^ 32)),
      progress := if h then (List.range k).map
        (fun j => { chunkIdx := j, chunksCount := chunksCountOf fileData.length C,
                    bytesTransferred := min ((j + 1) * C) fileData.length,
                    totalSize := fileData.length, timeMillis := s }) else [] } := by
  have hkL : k * C < fileData.length := chunksCountOf_mul_lt hC hk
  have h0 := uploadLoop_abort o fileData C h s F k t hC hkL hwk htk hne
    fileData.length 0 (Nat.zero_le k) (by simp) (fun j _ hjk => hpre j hjk)
  simp only [Nat.zero_mul, Nat.sub_zero, Nat.zero_min, Nat.add_zero] at h0
  unfold upload_binary_file_to_external_flash
  rw [List.range_eq_range' (k + 1), List.range_eq_range' k]
  exact h0

/-! ### Claim theorems -/

/-- C1 counterexample: two runs whose first (and only) checksum mismatch
happens at chunk index 0 and at chunk index 1 respectively produce exactly
the same error value, so the error cannot carry the mismatching chunk
index; the message carries only the host and target checksums. -/
theorem C1_counterexample :
    (upload_binary_file_to_external_flash ⟨fun _ => .ok 0, fun _ => .ok 6⟩
        [5] 1 0 false 0).result
      = .error (.invalidData "Checksum not match host=5 target=6") ∧
    (upload_binary_file_to_external_flash
        ⟨fun _ => .ok 0, fun j => .ok (if j = 0 then 5 else 6)⟩
        [5, 5] 1 0 false 0).result
      = .error (.invalidData "Checksum not match host=5 target=6") ∧
    (upload_binary_file_to_external_flash ⟨fun _ => .ok 0, fun _ => .ok 6⟩
        [5] 1 0 false 0).staged.map Prod.fst = [0] ∧
    (upload_binary_file_to_external_flash
        ⟨fun _ => .ok 0, fun j => .ok (if j = 0 then 5 else 6)⟩
        [5, 5] 1 0 false 0).staged.map Prod.fst = [0, 1] :=
  ⟨rfl, rfl, rfl, rfl⟩

/-- C1 (amended): when the first checksum mismatch happens at chunk `k`
(earlier chunks verify, chunk `k`'s write and call succeed but the target
checksum `t` differs from the host's), the upload aborts immediately with
an InvalidData error whose message carries the host and the target
checksum (not the chunk index), and the chunks ever staged to the
workspace or written to the target are exactly 0..k — none with a higher
index. -/
theorem C1_mismatch_aborts (o : GdbOracle) (fileData : List Nat) (C F s : Nat)
    (h : Bool) (k t : Nat) (hC : 0 < C)
    (hk : k < chunksCountOf fileData.length C)
    (hpre : ∀ j, j < k →
      (∃ w, o.writeByteCount j = .ok w) ∧
      o.targetChecksum j = .ok (hostChecksum fileData C j))
    (hwk : ∃ w, o.writeByteCount k = .ok w)
    (htk : o.targetChecksum k = .ok t)
    (hne : t ≠ hostChecksum fileData C k) :
    (upload_binary_file_to_external_flash o fileData C F h s).result
      = .error (.invalidData ("Checksum not match host="
          ++ toString (hostChecksum fileData C k) ++ " target=" ++ toString t)) ∧
    (upload_binary_file_to_external_flash o fileData C F h s).staged.map Prod.fst
      = List.range (k + 1) ∧
    (upload_binary_file_to_external_flash o fileData C F h s).ramWrites
      = List.range (k + 1) ∧
    (upload_binary_file_to_external_flash o fileData C F h s).copyCalls.length
      = k + 1 := by
  rw [upload_run_abort o fileData C F s h k t hC hk hpre hwk htk hne]
  refine ⟨rfl, ?_, rfl, by simp⟩
  simp [Function.comp_def]

/-- Witness for C1 at a concrete mismatching run. -/
theorem C1_witness :
    (upload_binary_file_to_external_flash ⟨fun _ => .ok 0, fun _ => .ok 7⟩
        [9] 1 0 false 0).result
      = .error (.invalidData ("Checksum not match host="
          ++ toString (hostChecksum [9] 1 0) ++ " target=" ++ toString 7)) ∧
    (upload_binary_file_to_external_flash ⟨fun _ => .ok 0, fun _ => .ok 7⟩
        [9] 1 0 false 0).staged.map Prod.fst = List.range 1 := by
  have h := C1_mismatch_aborts ⟨fun _ => .ok 0, fun _ => .ok 7⟩ [9] 1 0 0 false 0 7
    (by decide) (by decide) (fun j hj => absurd hj (Nat.not_lt_zero j)) ⟨0, rfl⟩ rfl
    (by decide)
  exact ⟨h.1, h.2.1⟩

/-- C2 counterexample: a run whose memory-write responses report 100 bytes
for every chunk, while the intended chunk sizes are 2 and 1: the progress
calls report 2 and 3 cumulative bytes and the copy calls use flash offsets
0 and 2 — accounting followed the intended chunk size, not the count
derived from the write response's address range. -/
theorem C2_counterexample :
    (GdbOracle.mk (fun _ => .ok 100) (fun _ => .ok 3)).writeByteCount 0 = .ok 100 ∧
    (upload_binary_file_to_external_flash
        ⟨fun _ => .ok 100, fun _ => .ok 3⟩ [1, 2, 3] 2 0 true 0).result = .ok () ∧
    (upload_binary_file_to_external_flash
        ⟨fun _ => .ok 100, fun _ => .ok 3⟩ [1, 2, 3] 2 0 true 0).progress
      = [⟨0, 2, 2, 3, 0⟩, ⟨1, 2, 3, 3, 0⟩] ∧
    (upload_binary_file_to_external_flash
        ⟨fun _ => .ok 100, fun _ => .ok 3⟩ [1, 2, 3] 2 0 true 0).copyCalls
      = [(0, 2), (2, 1)] ∧
    (2 : Nat) ≠ 100 :=
  ⟨rfl, rfl, rfl, rfl, by decide⟩

/-- C2 (amended): for every run in which all chunks verify, the progress
accounting is determined by the intended chunk sizes alone — cumulative
bytes after chunk `j` are `min ((j+1)·C) L` and the copy call for chunk
`j` uses flash offset `F + j·C` — for every oracle, whatever byte counts
its memory-write responses report (they are only logged). -/
theorem C2_progress_uses_intended_chunk_size (o : GdbOracle) (fileData : List Nat)
    (C F s : Nat) (hC : 0 < C)
    (hok : ∀ j, j * C < fileData.length →
      (∃ w, o.writeByteCount j = .ok w) ∧
      o.targetChecksum j = .ok (hostChecksum fileData C j)) :
    (upload_binary_file_to_external_flash o fileData C F true s).progress
      = (List.range (chunksCountOf fileData.length C)).map
          (fun j => { chunkIdx := j, chunksCount := chunksCountOf fileData.length C,
                      bytesTransferred := min ((j + 1) * C) fileData.length,
                      totalSize := fileData.length, timeMillis := s }) ∧
    (upload_binary_file_to_external_flash o fileData C F true s).copyCalls
      = (List.range (chunksCountOf fileData.length C)).map
          (fun j => ((F + j * C) % 2 ^ 32, chunkLen fileData.length C j % 2 ^ 32)) := by
  rw [upload_run_success o fileData C F s true hC hok]
  exact ⟨by simp, rfl⟩

/-- Witness for C2 at a concrete all-success run with an over-reporting
write oracle. -/
theorem C2_witness :
    (upload_binary_file_to_external_flash
        ⟨fun _ => .ok 77, fun j => .ok (hostChecksum [4, 4, 4] 2 j)⟩
        [4, 4, 4] 2 0 true 0).progress
      = (List.range (chunksCountOf 3 2)).map
          (fun j => { chunkIdx := j, chunksCount := chunksCountOf 3 2,
                      bytesTransferred := min ((j + 1) * 2) 3,
                      totalSize := 3, timeMillis := 0 }) := by
  exact (C2_progress_uses_intended_chunk_size
    ⟨fun _ => .ok 77, fun j => .ok (hostChecksum [4, 4, 4] 2 j)⟩ [4, 4, 4] 2 0 0
    (by decide) (fun j _ => ⟨⟨77, rfl⟩, rfl⟩)).1

/-- C3: with a cooperating target, an upload run with chunk size `C > 0`
over a file of length `L` stages one chunk per index below the chunk
count, the chunk count equals `⌈L / C⌉`, the per-chunk byte lengths sum to
`L`, and every chunk except possibly the last has length exactly `C`. -/
theorem C3_chunk_split (fileData : List Nat) (C F s : Nat) (hC : 0 < C) :
    (upload_binary_file_to_external_flash (honestOracle fileData C)
        fileData C F false s).staged.map (fun p => p.2.length)
      = (List.range (chunksCountOf fileData.length C)).map
          (fun j => chunkLen fileData.length C j) ∧
    chunksCountOf fileData.length C = (fileData.length + C - 1) / C ∧
    ((List.range (chunksCountOf fileData.length C)).map
        (fun j => chunkLen fileData.length C j)).sum = fileData.length ∧
    (∀ idx, idx + 1 < chunksCountOf fileData.length C →
      chunkLen fileData.length C idx = C) := by
  refine ⟨?_, chunksCountOf_eq_ceil hC, ?_, ?_⟩
  · rw [upload_run_success (honestOracle fileData C) fileData C F s false hC
      (fun j _ => ⟨⟨0, rfl⟩, rfl⟩)]
    simp [chunkSlice_length]
  · have hKC : fileData.length ≤ chunksCountOf fileData.length C * C := by
      by_contra hcon
      push_neg at hcon
      exact absurd (lt_chunksCountOf hC hcon) (lt_irrefl _)
    rw [List.range_eq_range', range'_chunkLen_sum]
    simp only [Nat.zero_mul, Nat.sub_zero]
    exact Nat.min_eq_left hKC
  · intro idx hidx
    have hx : (idx + 1) * C < fileData.length := chunksCountOf_mul_lt hC hidx
    have hsm : (idx + 1) * C = idx * C + C := Nat.succ_mul idx C
    simp only [chunkLen]
    omega

/-- Witness for C3 at a 5-byte file with chunk size 2. -/
theorem C3_witness :
    (upload_binary_file_to_external_flash (honestOracle [1, 2, 3, 4, 5] 2)
        [1, 2, 3, 4, 5] 2 0 false 0).staged.map (fun p => p.2.length)
      = (List.range (chunksCountOf 5 2)).map (fun j => chunkLen 5 2 j) ∧
    chunksCountOf 5 2 = (5 + 2 - 1) / 2 := by
  have h := C3_chunk_split [1, 2, 3, 4, 5] 2 0 0 (by decide)
  exact ⟨h.1, h.2.1⟩

/-- C4: the chunk checksum of the uploader (the fold of loader.rs:139)
equals the sum of the byte values modulo 2^32 (a wraparound sum); in
particular `[1,2,3,255]` yields 261 and `[]` yields 0, and any two byte
sequences that are permutations of each other yield the same checksum. -/
theorem C4_checksum_is_wraparound_sum (as bs : List Nat)
    (hbytes : ∀ v ∈ as, v < 256) (hperm : as.Perm bs) :
    chunk_checksum as = as.sum % 2 ^ 32 ∧
    chunk_checksum [1, 2, 3, 255] = 261 ∧
    chunk_checksum [] = 0 ∧
    chunk_checksum as = chunk_checksum bs := by
  refine ⟨chunk_checksum_eq_sum_mod as, by decide, rfl, ?_⟩
  rw [chunk_checksum_eq_sum_mod, chunk_checksum_eq_sum_mod, hperm.sum_eq]

/-- Witness for C4 at a concrete pair of permuted byte lists. -/
theorem C4_witness :
    chunk_checksum [1, 2, 3, 255] = [1, 2, 3, 255].sum % 2 ^ 32 ∧
    chunk_checksum [1, 2, 3, 255] = chunk_checksum [255, 3, 2, 1] := by
  have h := C4_checksum_is_wraparound_sum [1, 2, 3, 255] [255, 3, 2, 1]
    (by decide) (by decide)
  exact ⟨h.1, h.2.2.2⟩

/-- C5 counterexample: a line that contains the parenthesized range
pattern, with both values parsing as u32 (the spec-modelled extractor
returns the pair 2, 3), on which the code returns none — because its
`find_iter` pass counts a third `0x<hex>` token elsewhere in the line and
the code requires the whole line to contain exactly two. -/
theorem C5_counterexample :
    extract_address_range_spec "at 0x1 it says (0x2 to 0x3)".data = some (2, 3) ∧
    extract_adresses_from_response_line "at 0x1 it says (0x2 to 0x3)".data = none :=
  ⟨rfl, rfl⟩

/-- C5 (amended): the extractor returns none whenever the range pattern is
absent, and also whenever the whole line does not contain exactly two
`0x<hex>` tokens; on the spec's example line it returns the two addresses;
and any returned pair has both values below 2^32 with the pattern present. -/
theorem C5_extract_address_range :
    (∀ l, firstRangeMatch l = none →
      extract_adresses_from_response_line l = none) ∧
    extract_adresses_from_response_line
        "Restoring binary file x into memory (0x200b76a8 to 0x200c76a8)".data
      = some (0x200b76a8, 0x200c76a8) ∧
    (∀ l, (findHex l).length ≠ 2 →
      extract_adresses_from_response_line l = none) ∧
    (∀ l a b, extract_adresses_from_response_line l = some (a, b) →
      (firstRangeMatch l).isSome = true ∧ a < 2 ^ 32 ∧ b < 2 ^ 32) := by
  refine ⟨?_, rfl, ?_, fun l a b hx => extract_adresses_some hx⟩
  · intro l hl
    unfold extract_adresses_from_response_line
    rw [hl]
  · intro l hlen
    unfold extract_adresses_from_response_line
    split
    · rfl
    · split
      · rename_i heq
        exact absurd (by simp [heq] : (findHex l).length = 2) hlen
      · rfl

/-- Witness for C5: the pattern-absent case at a concrete line, and the
bounds part at a concrete extracted pair. -/
theorem C5_witness :
    extract_adresses_from_response_line "hello world".data = none ∧
    (0x200c76a8 : Nat) < 2 ^ 32 := by
  refine ⟨C5_extract_address_range.1 "hello world".data rfl, ?_⟩
  exact (C5_extract_address_range.2.2.2
    "Restoring binary file x into memory (0x200b76a8 to 0x200c76a8)".data
    0x200b76a8 0x200c76a8 C5_extract_address_range.2.1).2.2

/-- C6 counterexample: a line whose last whitespace-separated token is a
number but which uses a tab as the final separator: the spec-modelled
whitespace split yields 3, while the code — which splits on the single
space character only — tries to parse `"2\t3"` and returns none. -/
theorem C6_counterexample :
    extract_trailing_integer_spec "= 2\t3".data = some 3 ∧
    extract_variable_value_from_response_line "= 2\t3".data = none :=
  ⟨rfl, rfl⟩

/-- C6 (amended): the extractor splits on the space character (not general
whitespace), takes the last piece and parses it as an unsigned decimal
integer; `"$12 = 8228421"` yields 8228421, `"no numbers here"` yields
none, and every returned value is below 2^32. -/
theorem C6_extract_trailing_integer :
    extract_variable_value_from_response_line "$12 = 8228421".data = some 8228421 ∧
    extract_variable_value_from_response_line "no numbers here".data = none ∧
    (∀ l n, extract_variable_value_from_response_line l = some n → n < 2 ^ 32) := by
  refine ⟨rfl, rfl, fun l n hx => ?_⟩
  unfold extract_variable_value_from_response_line at hx
  split at hx
  · exact absurd hx (by simp)
  · exact parseU32Decimal_lt hx

/-- Witness for C6: the bounds part applied at the spec's example line. -/
theorem C6_witness : (8228421 : Nat) < 2 ^ 32 :=
  C6_extract_trailing_integer.2.2 "$12 = 8228421".data 8228421 rfl

/-- C7 counterexample: when the subprocess cannot be spawned, `try_new`
panics with "Failed to start GDB" (terminating the hosting process)
instead of returning a typed SpawnFailure to its caller. -/
theorem C7_counterexample :
    try_new (.error .notFound) "localhost:3333" = .panicked "Failed to start GDB" :=
  rfl

/-- C7 (amended): `try_new` panics on spawn failure rather than returning
a typed failure; when the stdin pipe works it always returns a session —
even when no handshake response ever arrives, so no HandshakeTimeout
failure exists; the only typed failure it returns is the pipe error from
writing a command. -/
theorem C7_try_new_failure_modes :
    (∀ e server, try_new (.error e) server = .panicked "Failed to start GDB") ∧
    (∀ st server, st.stdinOk = true →
      ∃ st2, try_new (.ok st) server = .ok st2) ∧
    (∀ st server, st.stdinOk = false →
      try_new (.ok st) server = .err .brokenPipe) := by
  refine ⟨fun e server => rfl, fun st server hok => ?_, fun st server hbad => ?_⟩
  · rcases st with ⟨so, ev, sl⟩
    simp only at hok
    subst hok
    exact ⟨_, rfl⟩
  · rcases st with ⟨so, ev, sl⟩
    simp only at hbad
    subst hbad
    rfl

/-- Witness for C7: the broken-stdin case and the no-response handshake
case at concrete states. -/
theorem C7_witness :
    try_new (.ok ⟨false, [], []⟩) "localhost:3333" = .err .brokenPipe ∧
    ∃ st2, try_new (.ok ⟨true, [], []⟩) "localhost:3333" = .ok st2 :=
  ⟨C7_try_new_failure_modes.2.2 ⟨false, [], []⟩ "localhost:3333" rfl,
   C7_try_new_failure_modes.2.1 ⟨true, [], []⟩ "localhost:3333" rfl⟩

/-- C8 (code bug): every progress-handler invocation of an upload run
receives as its time argument the run's start timestamp
(`system_time_start.duration_since(UNIX_EPOCH)`, milliseconds since the
Unix epoch at the moment the run started) — the same value for every
chunk, not the time elapsed since the upload run started. -/
theorem C8_handler_time_is_start_timestamp (o : GdbOracle) (fileData : List Nat)
    (C F s : Nat) (p : ProgressCall)
    (hp : p ∈ (upload_binary_file_to_external_flash o fileData C F true s).progress) :
    p.timeMillis = s :=
  uploadLoop_progress_time o fileData C true s _ _ _ _ _ _ _ _ p hp

/-- Witness for C8: in a concrete two-chunk run started at wall-clock time
123456 ms, the second chunk's handler call also carries 123456. -/
theorem C8_witness :
    (⟨1, 2, 2, 2, 123456⟩ : ProgressCall).timeMillis = 123456 :=
  C8_handler_time_is_start_timestamp (honestOracle [1, 2] 1) [1, 2] 1 0 123456
    ⟨1, 2, 2, 2, 123456⟩ (by decide)

/-- C9: a request issued with the none-expected (`Some(0)`) collection
policy returns an empty response frame immediately after the command is
sent — for every timeout, no stream event is consumed, no time elapses,
and the state changes only by recording the sent command line. -/
theorem C9_zero_policy_returns_immediately (cmd : String) (tmo : Nat) (st : GdbState)
    (hok : st.stdinOk = true) :
    make_request_await_response cmd (some 0) tmo st
      = (.ok [], { st with sent := st.sent ++ [cmd] }, 0) := by
  simp [make_request_await_response, make_request, hok]

/-- Witness for C9 at a concrete state with a pending event and a zero
timeout. -/
theorem C9_witness :
    make_request_await_response "monitor halt" (some 0) 0
        ⟨true, [(5, .line false "x")], []⟩
      = (.ok [], ⟨true, [(5, .line false "x")], ["monitor halt"]⟩, 0) :=
  C9_zero_policy_returns_immediately "monitor halt" 0
    ⟨true, [(5, .line false "x")], []⟩ rfl

/-- C10: the byte count returned by the memory-write operation is the
unguarded u32 subtraction of the two parsed addresses: whenever the
(trimmed) response line parses to `(from, to)` the operation returns
`ok ((to + 2^32 - from) % 2^32)` — when `to < from` this wraps around
rather than producing a MalformedResponse-style error — and under the
precondition `from ≤ to` the value equals `to - from`. -/
theorem C10_byte_count_unguarded_sub (buf path l : String) (b : Bool)
    (sent0 : List String) (f t : Nat)
    (hx : extract_adresses_from_response_line (rustTrim l).data = some (f, t)) :
    (write_binary_file_to_mem buf path ⟨true, [(0, .line b l)], sent0⟩).1
      = .ok ((t + 2 ^ 32 - f) % 2 ^ 32) ∧
    (f ≤ t → (t + 2 ^ 32 - f) % 2 ^ 32 = t - f) := by
  constructor
  · unfold write_binary_file_to_mem
    simp [make_request_await_response, make_request, await_responses,
      await_responses_go, hx]
  · intro hle
    have hb := (extract_adresses_some hx).2.2
    omega

/-- Witness for C10 at a concrete response line whose end address is below
its start address: the operation still returns ok, with the wrapped
value. -/
theorem C10_witness :
    (write_binary_file_to_mem "buf" "path"
        ⟨true, [(0, .line false "(0x10 to 0x5)")], []⟩).1
      = .ok ((5 + 2 ^ 32 - 16) % 2 ^ 32) :=
  (C10_byte_count_unguarded_sub "buf" "path" "(0x10 to 0x5)" false [] 16 5
    (by decide)).1

end GdbLoader
